import Mathlib

/-!
Verification of the lusbir library (`lusbir.py`): integer ranges characterized by a
lower bound, upper bound, step, and base.

The Python code is shallowly embedded: Python `int` becomes `Int`, Python floor
division `//` becomes `Int.fdiv`, Python `%` becomes `Int.fmod`, Python `range`
objects become the `PyRange` structure together with executable functions
mirroring CPython's range semantics, and fallible operations return `Except`.
-/

deriving instance DecidableEq for Except

/-- A Python `range` object: `range(start, stop, step)`. -/
structure PyRange where
  start : Int
  stop : Int
  step : Int
deriving DecidableEq, Repr

/-- A lower or upper bound in a lusbir (Python `Bound` named tuple). -/
structure Bound where
  number : Int
  inclusive : Bool
deriving DecidableEq, Repr

/-- The four pieces of information that characterize a lusbir (Python `LusbTuple`). -/
structure LusbTuple where
  lbound : Bound
  ubound : Bound
  step : Int
  base : Int
deriving DecidableEq, Repr

/-- Python `_ceil_progress(x, step, base)`: `-((x - base) // -step) * step + base`,
expressing x as (r * step + base) and returning (ceil(r) * step + base).
Python `//` is floor division, i.e. `Int.fdiv`. -/
def ceil_progress (x step base : Int) : Int :=
  -((x - base).fdiv (-step)) * step + base

/-- Python `_lusb_tuple_to_range`: the canonical Python range representing the same
list as a lusbir with the given lusb tuple. -/
def lusb_tuple_to_range (t : LusbTuple) : PyRange :=
  let inclusive_start_bound :=
    if 0 < t.step then
      (if t.lbound.inclusive then t.lbound.number else t.lbound.number + 1)
    else
      (if t.ubound.inclusive then t.ubound.number else t.ubound.number - 1)
  let exclusive_stop_bound :=
    if 0 < t.step then
      (if t.ubound.inclusive then t.ubound.number + 1 else t.ubound.number)
    else
      (if t.lbound.inclusive then t.lbound.number - 1 else t.lbound.number)
  ⟨ceil_progress inclusive_start_bound t.step t.base,
   ceil_progress exclusive_stop_bound t.step t.base,
   t.step⟩

/-- Length of a Python range (CPython `compute_range_length`):
normalize to a positive step, then `0` if `lo >= hi` else `(hi - lo - 1) // step + 1`. -/
def rangeLen (r : PyRange) : Int :=
  let lo := if 0 < r.step then r.start else r.stop
  let hi := if 0 < r.step then r.stop else r.start
  let step := if 0 < r.step then r.step else -r.step
  if hi ≤ lo then 0 else (hi - lo - 1).fdiv step + 1

/-- The list of elements produced by iterating a Python range:
element i is `start + i * step`. -/
def rangeList (r : PyRange) : List Int :=
  (List.range (rangeLen r).toNat).map fun i : Nat => r.start + (i : Int) * r.step

/-- Python `x in range` for integer x (CPython `range_contains_long`):
within `[start, stop)` (or `(stop, start]` for negative step) by comparison,
and `(x - start) % step == 0` (Python `%` is `Int.fmod`). -/
def rangeContains (r : PyRange) (x : Int) : Bool :=
  (if 0 < r.step then r.start ≤ x ∧ x < r.stop else r.stop < x ∧ x ≤ r.start)
    ∧ (x - r.start).fmod r.step = 0

/-- Python `range.__eq__` (CPython `range_equals`): ranges compare as the sequences
they represent -- equal lengths; if empty, equal; then equal starts; if a single
element, equal; otherwise equal steps. -/
def rangeEquals (r0 r1 : PyRange) : Bool :=
  if rangeLen r0 ≠ rangeLen r1 then false
  else if rangeLen r0 = 0 then true
  else if r0.start ≠ r1.start then false
  else if rangeLen r0 = 1 then true
  else r0.step = r1.step

/-- Python `range.__getitem__` for an integer index (CPython `compute_range_item`):
negative indices count from the end; `none` models the raised `IndexError`. -/
def rangeGetItemInt (r : PyRange) (i : Int) : Option Int :=
  let length := rangeLen r
  let i' := if i < 0 then i + length else i
  if i' < 0 ∨ length ≤ i' then none else some (r.start + i' * r.step)

/-- A Python `slice(start, stop, step)` object; `none` models `None`. -/
structure PySlice where
  start : Option Int
  stop : Option Int
  step : Option Int

/-- Errors raised by the lusbir code, structurally.  The payload of each
constructor is the data interpolated into the corresponding Python message. -/
inductive PyErr
  /-- `ValueError('lusbir step cannot be 0')` -/
  | stepZero
  /-- `ValueError(f'invalid lusbir bound type: {bound_type}')` -/
  | invalidBoundType (boundType : String)
  /-- `TypeError(f'invalid lusbir arguments -- argument types received were: {arg_types}')` -/
  | invalidArgs (argTypes : List String)
  /-- `IndexError(f'lusbir index out of range: {subscript}')` -/
  | indexOutOfRange (subscript : Int)
  /-- `TypeError(f'lusbir subscripts must be integers or slices, not {type_name}')` -/
  | subscriptTypeError (typeName : String)
  /-- `ValueError(f'lusbir does not contain {x}')` -/
  | notFound (x : Int)
  /-- `ValueError('slice step cannot be zero')`, raised by slice index resolution -/
  | sliceStepZero
deriving DecidableEq, Repr

/-- Resolution of a slice against a sequence of the given length (CPython
`_PySlice_GetLongIndices`): default step 1 (zero step is an error); clamp start
and stop into `[0, length]` (positive step) or `[-1, length - 1]` (negative step),
interpreting negative values as counting from the end. Returns (start, stop, step). -/
def sliceIndices (s : PySlice) (length : Int) : Except PyErr (Int × Int × Int) :=
  let step := s.step.getD 1
  if step = 0 then .error .sliceStepZero
  else
    let lower := if step < 0 then -1 else 0
    let upper := if step < 0 then length - 1 else length
    let start :=
      match s.start with
      | none => if step < 0 then upper else lower
      | some v => if v < 0 then max (v + length) lower else min v upper
    let stop :=
      match s.stop with
      | none => if step < 0 then lower else upper
      | some v => if v < 0 then max (v + length) lower else min v upper
    .ok (start, stop, step)

/-- Number of items selected by resolved slice indices (CPython
`PySlice_AdjustIndices` return value). -/
def sliceLength (istart istop istep : Int) : Int :=
  if istep < 0 then
    (if istop < istart then (istart - istop - 1).fdiv (-istep) + 1 else 0)
  else
    (if istart < istop then (istop - istart - 1).fdiv istep + 1 else 0)

/-- Python range slicing (CPython `compute_slice` in `rangeobject.c`): resolve the
slice against the range's length, then build
`range(start + istart*step, start + istop*step, step*istep)`. -/
def rangeGetSlice (r : PyRange) (s : PySlice) : Except PyErr PyRange :=
  match sliceIndices s (rangeLen r) with
  | .error e => .error e
  | .ok (istart, istop, istep) =>
      .ok ⟨r.start + istart * r.step, r.start + istop * r.step, r.step * istep⟩

/-- Python list slicing (CPython `list_subscript`): resolve the slice against the
list's length, then take elements `l[istart + k*istep]` for `k < slicelength`.
All accessed indices are in bounds, so the `getD` default is never used. -/
def listSlice (l : List Int) (s : PySlice) : Except PyErr (List Int) :=
  match sliceIndices s (l.length : Int) with
  | .error e => .error e
  | .ok (istart, istop, istep) =>
      .ok ((List.range (sliceLength istart istop istep).toNat).map
            fun k : Nat => l.getD (istart + (k : Int) * istep).toNat 0)

/-- The lusbir value type: a constructed `Lusbir` holds its canonical Python range
(`_range`) and its lusb tuple (`_lusb_tuple`). -/
structure Lusbir where
  toRange : PyRange
  lusb_tuple : LusbTuple
deriving DecidableEq, Repr

/-- Build the `Lusbir` record for a lusb tuple (the assignment part of
`Lusbir._init_from_lusb_tuple`, after the step check has passed). -/
def mkLusbir (t : LusbTuple) : Lusbir :=
  ⟨lusb_tuple_to_range t, t⟩

/-- Python `Lusbir._init_from_lusb_tuple`: reject a zero step with a `ValueError`
before computing the canonical range; otherwise store range and tuple. -/
def init_from_lusb_tuple (t : LusbTuple) : Except PyErr Lusbir :=
  if t.step = 0 then .error .stepZero
  else .ok (mkLusbir t)

/-- Python `Lusbir.from_lusb_tuple` classmethod: construct from a lusb tuple,
raising `ValueError` on a zero step. -/
def Lusbir.from_lusb_tuple (t : LusbTuple) : Except PyErr Lusbir :=
  init_from_lusb_tuple t

/-- A positional argument to the standard `Lusbir` constructor: a Python `int`
or `str` (other argument types always fall into the no-match `TypeError` case). -/
inductive Arg
  | int (n : Int)
  | str (s : String)
deriving DecidableEq, Repr

/-- The Python type name of a constructor argument, as used in the
invalid-arguments `TypeError` message. -/
def argTypeName : Arg → String
  | .int _ => "int"
  | .str _ => "str"

/-- The `_bound_type_to_inclusivities` dict lookup: `none` models a `KeyError`. -/
def bound_type_to_inclusivities : String → Option (Bool × Bool)
  | "()" => some (false, false)
  | "(]" => some (false, true)
  | "[)" => some (true, false)
  | "[]" => some (true, true)
  | _ => none

/-- The `_inclusivities_to_bound_type` dict: the inverse of
`_bound_type_to_inclusivities`. -/
def inclusivities_to_bound_type : Bool → Bool → String
  | false, false => "()"
  | false, true => "(]"
  | true, false => "[)"
  | true, true => "[]"

/-- Resolution of the trailing `other_args` in `Lusbir.__init__`:
`[] -> (1, 0)`, `[step] -> (step, 0)`, `[step, base] -> (step, base)`,
anything else is a `TypeError` (modelled as `none`). -/
def resolveOtherArgs : List Arg → Option (Int × Int)
  | [] => some (1, 0)
  | [.int step] => some (step, 0)
  | [.int step, .int base] => some (step, base)
  | _ => none

/-- Python `Lusbir.__init__`: dispatch on the shape of the positional arguments
(`[ub]`, `[lb, ub, *other]`, `[bound_type, lb, ub, *other]`), resolve the bound
type and the step/base defaults, then initialize from the resulting lusb tuple. -/
def lusbirInit (args : List Arg) : Except PyErr Lusbir :=
  match args with
  | [.int ub_num] =>
      init_from_lusb_tuple ⟨⟨0, true⟩, ⟨ub_num, false⟩, 1, 0⟩
  | .int lb_num :: .int ub_num :: other_args =>
      match resolveOtherArgs other_args with
      | some (step, base) =>
          init_from_lusb_tuple ⟨⟨lb_num, true⟩, ⟨ub_num, false⟩, step, base⟩
      | none => .error (.invalidArgs (args.map argTypeName))
  | .str bound_type :: .int lb_num :: .int ub_num :: other_args =>
      match bound_type_to_inclusivities bound_type with
      | none => .error (.invalidBoundType bound_type)
      | some (lb_incl, ub_incl) =>
          match resolveOtherArgs other_args with
          | some (step, base) =>
              init_from_lusb_tuple ⟨⟨lb_num, lb_incl⟩, ⟨ub_num, ub_incl⟩, step, base⟩
          | none => .error (.invalidArgs (args.map argTypeName))
  | _ => .error (.invalidArgs (args.map argTypeName))

/-- Python `Lusbir.from_range`: wrap a Python range by calling the standard
constructor with `('[)', start, stop, step, start)` for positive step and
`('(]', stop, start, step, start)` otherwise. -/
def Lusbir.from_range (r : PyRange) : Except PyErr Lusbir :=
  if 0 < r.step then
    lusbirInit [.str "[)", .int r.start, .int r.stop, .int r.step, .int r.start]
  else
    lusbirInit [.str "(]", .int r.stop, .int r.start, .int r.step, .int r.start]

/-- Python `Lusbir.__eq__` against another lusbir: compare the underlying
canonical Python ranges (Python range equality is sequence equality). -/
def Lusbir.eq (a b : Lusbir) : Bool :=
  rangeEquals a.toRange b.toRange

/-- The list a lusbir represents: `list(self)`, i.e. the iteration of its
canonical range (`Lusbir.__iter__`). -/
def Lusbir.list (l : Lusbir) : List Int :=
  rangeList l.toRange

/-- Python `Lusbir.__contains__`: membership in the canonical range. -/
def Lusbir.contains (l : Lusbir) (x : Int) : Bool :=
  rangeContains l.toRange x

/-- Python `Lusbir.__len__`: length of the canonical range. -/
def Lusbir.len (l : Lusbir) : Int :=
  rangeLen l.toRange

/-- A subscript passed to `Lusbir.__getitem__`: an integer, a slice, or a value
of any other type (carrying its Python type name). -/
inductive Subscript
  | int (i : Int)
  | slice (s : PySlice)
  | other (typeName : String)

/-- The result of a successful `Lusbir.__getitem__`: an integer when indexing,
a lusbir when slicing. -/
inductive GetItemResult
  | int (v : Int)
  | lusbir (l : Lusbir)
deriving Repr

/-- Python `Lusbir.__getitem__`: integer subscripts index the canonical range
(re-raising `IndexError` with the offending subscript in the message); slice
subscripts slice the canonical range and wrap the result via `from_range`;
any other subscript type raises a `TypeError` naming the received type. -/
def Lusbir.getitem (l : Lusbir) (sub : Subscript) : Except PyErr GetItemResult :=
  match sub with
  | .int i =>
      match rangeGetItemInt l.toRange i with
      | some v => .ok (.int v)
      | none => .error (.indexOutOfRange i)
  | .slice s =>
      match rangeGetSlice l.toRange s with
      | .error e => .error e
      | .ok r => (Lusbir.from_range r).map .lusbir
  | .other typeName => .error (.subscriptTypeError typeName)

/-- Python `Lusbir.index`: index of x in the canonical range, or a `ValueError`
naming x when absent. -/
def Lusbir.index (l : Lusbir) (x : Int) : Except PyErr Int :=
  match (rangeList l.toRange).indexOf? x with
  | some n => .ok (n : Int)
  | none => .error (.notFound x)

/-- Python `Lusbir.__repr__`, modelled as the argument list of the constructor
call appearing in the repr string: always the bound-type-tag form
`Lusbir(bound_type, lb_num, ub_num[, step[, base]])`, where step and base are
included only when different from their defaults (base omitted iff 0; step
additionally omitted iff it is 1 and base is omitted). -/
def Lusbir.reprArgs (l : Lusbir) : List Arg :=
  let t := l.lusb_tuple
  let bound_type := inclusivities_to_bound_type t.lbound.inclusive t.ubound.inclusive
  if t.base ≠ 0 then
    [.str bound_type, .int t.lbound.number, .int t.ubound.number, .int t.step, .int t.base]
  else if t.step ≠ 1 then
    [.str bound_type, .int t.lbound.number, .int t.ubound.number, .int t.step]
  else
    [.str bound_type, .int t.lbound.number, .int t.ubound.number]

/-- The half-open comparison in the direction of a step: `x < y` for a positive
step, `y < x` otherwise. -/
def dirLt (step x y : Int) : Prop :=
  if 0 < step then x < y else y < x

instance (step x y : Int) : Decidable (dirLt step x y) := by
  unfold dirLt; infer_instance

/-- The membership condition of a lusbir as documented: between the lower and
upper bounds per their inclusivities, and of the form `n * step + base`
(equivalently, `(x - base) % step == 0`). -/
def lusbMember (t : LusbTuple) (x : Int) : Prop :=
  (if t.lbound.inclusive then t.lbound.number ≤ x else t.lbound.number < x) ∧
  (if t.ubound.inclusive then x ≤ t.ubound.number else x < t.ubound.number) ∧
  (x - t.base).fmod t.step = 0

instance (t : LusbTuple) (x : Int) : Decidable (lusbMember t x) := by
  unfold lusbMember; infer_instance

/- ### Groundwork: floor division (`Int.fdiv`, Python `//`) -/

theorem neg_fdiv_neg : ∀ a b : Int, Int.fdiv (-a) (-b) = Int.fdiv a b
  | .ofNat 0, _ => by simp
  | .ofNat (_ + 1), .ofNat 0 => by simp
  | .ofNat (_ + 1), .ofNat (_ + 1) => by rfl
  | .ofNat (_ + 1), .negSucc _ => by rfl
  | .negSucc _, .ofNat 0 => by simp
  | .negSucc _, .ofNat (_ + 1) => by rfl
  | .negSucc _, .negSucc _ => by rfl

/-- Floor-division bounds for a positive divisor. -/
theorem fdiv_bounds_pos (a : Int) {b : Int} (hb : 0 < b) :
    b * a.fdiv b ≤ a ∧ a < b * (a.fdiv b + 1) := by
  have h := Int.fmod_add_fdiv a b
  have h1 := Int.fmod_nonneg' a hb
  have h2 := Int.fmod_lt_of_pos a hb
  constructor
  · linarith
  · rw [mul_add, mul_one]; linarith

/-- Floor-division bounds for a negative divisor. -/
theorem fdiv_bounds_neg (a : Int) {b : Int} (hb : b < 0) :
    a ≤ b * a.fdiv b ∧ b * (a.fdiv b + 1) < a := by
  have hb' : 0 < -b := by omega
  have h := fdiv_bounds_pos (-a) hb'
  rw [neg_fdiv_neg a b] at h
  constructor
  · linarith [h.1]
  · linarith [h.2]

/-- Uniqueness of the floor quotient for a positive divisor. -/
theorem fdiv_unique {a b q : Int} (hb : 0 < b) (h1 : b * q ≤ a) (h2 : a < b * (q + 1)) :
    a.fdiv b = q := by
  have h := fdiv_bounds_pos a hb
  have l1 : b * q < b * (a.fdiv b + 1) := by linarith [h.2]
  have l2 : b * a.fdiv b < b * (q + 1) := by linarith [h.1]
  have := (mul_lt_mul_left hb).mp l1
  have := (mul_lt_mul_left hb).mp l2
  omega

/-- Uniqueness of the floor quotient for a negative divisor. -/
theorem fdiv_unique_neg {a b q : Int} (hb : b < 0) (h1 : a ≤ b * q) (h2 : b * (q + 1) < a) :
    a.fdiv b = q := by
  have h := fdiv_bounds_neg a hb
  have l1 : b * (a.fdiv b + 1) < b * q := by linarith [h.2]
  have l2 : b * (q + 1) < b * a.fdiv b := by linarith [h.1]
  have := (mul_lt_mul_left_of_neg hb).mp l1
  have := (mul_lt_mul_left_of_neg hb).mp l2
  omega

/-- Adding a multiple of the divisor shifts the floor quotient. -/
theorem add_mul_fdiv {a b : Int} (k : Int) (hb : b ≠ 0) :
    (a + k * b).fdiv b = a.fdiv b + k := by
  rcases lt_or_gt_of_ne hb with hneg | hpos
  · have h := fdiv_bounds_neg a hneg
    apply fdiv_unique_neg hneg
    · have := h.1; nlinarith
    · have := h.2; nlinarith
  · have h := fdiv_bounds_pos a hpos
    apply fdiv_unique hpos
    · have := h.1; nlinarith
    · have := h.2; nlinarith

/-- Python `%` is zero exactly on multiples of the divisor. -/
theorem fmod_eq_zero_iff_dvd (a b : Int) : a.fmod b = 0 ↔ b ∣ a := by
  constructor
  · intro h
    have := Int.fdiv_add_fmod a b
    exact ⟨a.fdiv b, by omega⟩
  · rintro ⟨c, rfl⟩
    exact Int.mul_fmod_right b c

/- ### Groundwork: `ceil_progress` -/

/-- `ceil_progress` lands on the lattice `{n * step + base}`. -/
theorem ceil_progress_dvd (x step base : Int) :
    step ∣ (ceil_progress x step base - base) :=
  ⟨-((x - base).fdiv (-step)), by unfold ceil_progress; ring⟩

/-- For a positive step, `ceil_progress x` is the least lattice point `≥ x`. -/
theorem ceil_progress_bounds_pos {step : Int} (hs : 0 < step) (x base : Int) :
    x ≤ ceil_progress x step base ∧ ceil_progress x step base - step < x := by
  unfold ceil_progress
  have h := fdiv_bounds_neg (x - base) (b := -step) (by omega)
  constructor
  · linarith [h.1]
  · linarith [h.2]

/-- For a negative step, `ceil_progress x` is the greatest lattice point `≤ x`. -/
theorem ceil_progress_bounds_neg {step : Int} (hs : step < 0) (x base : Int) :
    ceil_progress x step base ≤ x ∧ x < ceil_progress x step base - step := by
  unfold ceil_progress
  have h := fdiv_bounds_pos (x - base) (b := -step) (by omega)
  constructor
  · linarith [h.1]
  · linarith [h.2]

/-- Two lattice points less than one step apart in the step's direction coincide
at distance zero: strict inequality forces a full step of separation. -/
theorem lattice_step_separation {step x y : Int} (hd : step ∣ y - x) (hs : 0 < step)
    (hlt : x < y) : x + step ≤ y := by
  obtain ⟨k, hk⟩ := hd
  have hkpos : 0 < k := by nlinarith
  nlinarith

/- ### Groundwork: Python range semantics -/

theorem rangeLen_nonneg (r : PyRange) : 0 ≤ rangeLen r := by
  unfold rangeLen
  rcases lt_trichotomy r.step 0 with h | h | h
  · simp only [if_neg (by omega : ¬0 < r.step)]
    split
    · omega
    · have := Int.fdiv_nonneg (a := r.start - r.stop - 1) (b := -r.step) (by omega) (by omega)
      omega
  · simp [h]
    split
    · omega
    · have : (1 : Int).fdiv 0 = 0 := by rfl
      simp [Int.fdiv_zero]
  · simp only [if_pos h]
    split
    · omega
    · have := Int.fdiv_nonneg (a := r.stop - r.start - 1) (b := r.step) (by omega) (by omega)
      omega

/-- The length of a Python range counts exactly the indices i with
`start + i*step` strictly before `stop` in the step's direction. -/
theorem rangeLen_iff {r : PyRange} (h : r.step ≠ 0) {i : Int} (hi : 0 ≤ i) :
    i < rangeLen r ↔ dirLt r.step (r.start + i * r.step) r.stop := by
  unfold rangeLen dirLt
  rcases lt_or_gt_of_ne h with hneg | hpos
  · simp only [if_neg (by omega : ¬0 < r.step)]
    split
    · constructor
      · omega
      · intro hlt
        have : i * r.step ≤ 0 := mul_nonpos_of_nonneg_of_nonpos hi (by omega)
        omega
    · rename_i hgt
      have hb := fdiv_bounds_pos (r.start - r.stop - 1) (b := -r.step) (by omega)
      constructor
      · intro hil
        have : i ≤ (r.start - r.stop - 1).fdiv (-r.step) := by omega
        have : i * -r.step ≤ (r.start - r.stop - 1).fdiv (-r.step) * -r.step :=
          mul_le_mul_of_nonneg_right this (by omega)
        nlinarith [hb.1]
      · intro hlt
        have h1 : i * -r.step < -r.step * ((r.start - r.stop - 1).fdiv (-r.step) + 1) := by
          nlinarith [hb.2]
        have : i < (r.start - r.stop - 1).fdiv (-r.step) + 1 := by
          have := mul_lt_mul_of_pos_left (a := i)
            (b := (r.start - r.stop - 1).fdiv (-r.step) + 1) (c := -r.step)
          by_contra hc
          have hge : (r.start - r.stop - 1).fdiv (-r.step) + 1 ≤ i := by omega
          have : ((r.start - r.stop - 1).fdiv (-r.step) + 1) * -r.step ≤ i * -r.step :=
            mul_le_mul_of_nonneg_right hge (by omega)
          nlinarith
        omega
  · simp only [if_pos hpos]
    split
    · constructor
      · omega
      · intro hlt
        have : 0 ≤ i * r.step := mul_nonneg hi (by omega)
        omega
    · rename_i hgt
      have hb := fdiv_bounds_pos (r.stop - r.start - 1) (b := r.step) (by omega)
      constructor
      · intro hil
        have : i ≤ (r.stop - r.start - 1).fdiv r.step := by omega
        have : i * r.step ≤ (r.stop - r.start - 1).fdiv r.step * r.step :=
          mul_le_mul_of_nonneg_right this (by omega)
        nlinarith [hb.1]
      · intro hlt
        have : i < (r.stop - r.start - 1).fdiv r.step + 1 := by
          by_contra hc
          have hge : (r.stop - r.start - 1).fdiv r.step + 1 ≤ i := by omega
          have : ((r.stop - r.start - 1).fdiv r.step + 1) * r.step ≤ i * r.step :=
            mul_le_mul_of_nonneg_right hge (by omega)
          nlinarith [hb.2]
        omega

/-- Two nonnegative lengths counting the same predicate agree. -/
theorem len_unique {L1 L2 : Int} (h1 : 0 ≤ L1) (h2 : 0 ≤ L2) (P : Int → Prop)
    (c1 : ∀ i, 0 ≤ i → (i < L1 ↔ P i)) (c2 : ∀ i, 0 ≤ i → (i < L2 ↔ P i)) : L1 = L2 := by
  by_contra hne
  rcases lt_or_gt_of_ne hne with hlt | hlt
  · exact absurd ((c1 L1 h1).mpr ((c2 L1 h1).mp hlt)) (by omega)
  · exact absurd ((c2 L2 h2).mpr ((c1 L2 h2).mp hlt)) (by omega)

theorem rangeList_length (r : PyRange) : (rangeList r).length = (rangeLen r).toNat := by
  unfold rangeList
  rw [List.length_map, List.length_range]

theorem rangeList_getElem (r : PyRange) (n : Nat) (hn : n < (rangeList r).length) :
    (rangeList r)[n] = r.start + (n : Int) * r.step := by
  unfold rangeList at hn ⊢
  simp only [List.getElem_map, List.getElem_range]

theorem dvd_sub_ceil_progress {step base x : Int} (hd : step ∣ x - base) (a : Int) :
    step ∣ x - ceil_progress a step base := by
  have h2 := ceil_progress_dvd a step base
  have he : x - ceil_progress a step base = (x - base) - (ceil_progress a step base - base) := by
    ring
  rw [he]
  exact dvd_sub hd h2

/-- For a positive step and lattice x, comparing x against `ceil_progress a` is the
same as comparing against a itself (lower-bound side). -/
theorem ceil_progress_le_iff_pos {step : Int} (hs : 0 < step) {base x : Int}
    (hd : step ∣ x - base) (a : Int) : ceil_progress a step base ≤ x ↔ a ≤ x := by
  have hb := ceil_progress_bounds_pos hs a base
  constructor
  · intro h1; linarith [hb.1]
  · intro h1
    by_contra hc
    push_neg at hc
    have hdd : step ∣ ceil_progress a step base - x := by
      have h2 := dvd_neg.mpr (dvd_sub_ceil_progress hd a)
      rwa [neg_sub] at h2
    have := lattice_step_separation hdd hs hc
    linarith [hb.2]

/-- For a positive step and lattice x, comparing x against `ceil_progress b` is the
same as comparing against b itself (upper-bound side). -/
theorem lt_ceil_progress_iff_pos {step : Int} (hs : 0 < step) {base x : Int}
    (hd : step ∣ x - base) (b : Int) : x < ceil_progress b step base ↔ x < b := by
  have hb := ceil_progress_bounds_pos hs b base
  constructor
  · intro h1
    have hdd : step ∣ ceil_progress b step base - x := by
      have h2 := dvd_neg.mpr (dvd_sub_ceil_progress hd b)
      rwa [neg_sub] at h2
    have := lattice_step_separation hdd hs h1
    linarith [hb.2]
  · intro h1; linarith [hb.1]

/-- For a negative step and lattice x, comparing x against `ceil_progress a` is the
same as comparing against a itself (start side). -/
theorem le_ceil_progress_iff_neg {step : Int} (hs : step < 0) {base x : Int}
    (hd : step ∣ x - base) (a : Int) : x ≤ ceil_progress a step base ↔ x ≤ a := by
  have hb := ceil_progress_bounds_neg hs a base
  constructor
  · intro h1; linarith [hb.1]
  · intro h1
    by_contra hc
    push_neg at hc
    have hdd : -step ∣ x - ceil_progress a step base :=
      (neg_dvd).mpr (dvd_sub_ceil_progress hd a)
    have := lattice_step_separation hdd (by omega) hc
    linarith [hb.2]

/-- For a negative step and lattice x, comparing x against `ceil_progress b` is the
same as comparing against b itself (stop side). -/
theorem ceil_progress_lt_iff_neg {step : Int} (hs : step < 0) {base x : Int}
    (hd : step ∣ x - base) (b : Int) : ceil_progress b step base < x ↔ b < x := by
  have hb := ceil_progress_bounds_neg hs b base
  constructor
  · intro h1
    have hdd : -step ∣ x - ceil_progress b step base :=
      (neg_dvd).mpr (dvd_sub_ceil_progress hd b)
    have := lattice_step_separation hdd (by omega) h1
    linarith [hb.2]
  · intro h1; linarith [hb.1]

/-- Membership in the iterated sequence of a Python range, characterized by the
direction-aware bounds and divisibility. -/
theorem mem_rangeList_iff {r : PyRange} (h : r.step ≠ 0) (x : Int) :
    x ∈ rangeList r ↔
      ((if 0 < r.step then r.start ≤ x ∧ x < r.stop else r.stop < x ∧ x ≤ r.start) ∧
        r.step ∣ (x - r.start)) := by
  constructor
  · intro hx
    obtain ⟨n, hn, rfl⟩ := List.mem_iff_getElem.mp hx
    rw [rangeList_getElem r n hn] at *
    have hlen : (n : Int) < rangeLen r := by
      rw [rangeList_length] at hn
      omega
    have hdir := (rangeLen_iff h (by omega : (0:Int) ≤ n)).mp hlen
    unfold dirLt at hdir
    refine ⟨?_, ⟨n, by ring⟩⟩
    rcases lt_or_gt_of_ne h with hneg | hpos
    · simp only [if_neg (by omega : ¬0 < r.step)] at hdir ⊢
      have : (n : Int) * r.step ≤ 0 := mul_nonpos_of_nonneg_of_nonpos (by omega) (by omega)
      omega
    · simp only [if_pos hpos] at hdir ⊢
      have : 0 ≤ (n : Int) * r.step := mul_nonneg (by omega) (by omega)
      omega
  · rintro ⟨hbounds, k, hk⟩
    rw [mul_comm] at hk
    have hx : x = r.start + k * r.step := by omega
    have hk0 : 0 ≤ k := by
      rcases lt_or_gt_of_ne h with hneg | hpos
      · simp only [if_neg (by omega : ¬0 < r.step)] at hbounds
        nlinarith [hbounds.2]
      · simp only [if_pos hpos] at hbounds
        nlinarith [hbounds.1]
    have hklen : k < rangeLen r := by
      rw [rangeLen_iff h hk0]
      unfold dirLt
      rcases lt_or_gt_of_ne h with hneg | hpos
      · simp only [if_neg (by omega : ¬0 < r.step)] at hbounds ⊢
        omega
      · simp only [if_pos hpos] at hbounds ⊢
        omega
    rw [hx]
    have hlt : k.toNat < (rangeList r).length := by
      rw [rangeList_length]; omega
    refine List.mem_iff_getElem.mpr ⟨k.toNat, hlt, ?_⟩
    rw [rangeList_getElem r k.toNat hlt]
    have hkk : ((k.toNat : Nat) : Int) = k := by omega
    rw [hkk]

/- ### Groundwork: lusbir canonicalization correctness -/

/-- Unfolding of the canonical range of a lusb tuple as a structure literal. -/
theorem lusb_tuple_to_range_eq (t : LusbTuple) :
    lusb_tuple_to_range t =
      ⟨ceil_progress
          (if 0 < t.step then
            (if t.lbound.inclusive then t.lbound.number else t.lbound.number + 1)
          else
            (if t.ubound.inclusive then t.ubound.number else t.ubound.number - 1))
          t.step t.base,
        ceil_progress
          (if 0 < t.step then
            (if t.ubound.inclusive then t.ubound.number + 1 else t.ubound.number)
          else
            (if t.lbound.inclusive then t.lbound.number - 1 else t.lbound.number))
          t.step t.base,
        t.step⟩ := rfl

/-- The iterated sequence of the canonical range of a lusb tuple contains exactly
the integers between the bounds (per inclusivity) that are congruent to the base
modulo the step. -/
theorem mem_lusb_range_iff {t : LusbTuple} (h : t.step ≠ 0) (x : Int) :
    x ∈ rangeList (lusb_tuple_to_range t) ↔ lusbMember t x := by
  rw [lusb_tuple_to_range_eq]
  rw [mem_rangeList_iff (by simpa using h)]
  unfold lusbMember
  rw [fmod_eq_zero_iff_dvd]
  simp only
  rcases lt_or_gt_of_ne h with hneg | hpos
  · simp only [if_neg (by omega : ¬0 < t.step)]
    set a := if t.ubound.inclusive then t.ubound.number else t.ubound.number - 1 with ha
    set b := if t.lbound.inclusive then t.lbound.number - 1 else t.lbound.number with hb
    constructor
    · rintro ⟨⟨h1, h2⟩, hd⟩
      have hdb : t.step ∣ x - t.base := by
        have hcp := ceil_progress_dvd a t.step t.base
        have he : x - t.base =
            (x - ceil_progress a t.step t.base) + (ceil_progress a t.step t.base - t.base) := by
          ring
        rw [he]
        exact dvd_add hd hcp
      have hxa := (le_ceil_progress_iff_neg hneg hdb a).mp h2
      have hxb := (ceil_progress_lt_iff_neg hneg hdb b).mp h1
      refine ⟨?_, ?_, hdb⟩
      · by_cases hc : t.lbound.inclusive = true <;> simp [hc] at hb ⊢ <;> omega
      · by_cases hc : t.ubound.inclusive = true <;> simp [hc] at ha ⊢ <;> omega
    · rintro ⟨h1, h2, hdb⟩
      have hxa : x ≤ a := by
        by_cases hc : t.ubound.inclusive = true <;> simp [hc] at ha h2 <;> omega
      have hxb : b < x := by
        by_cases hc : t.lbound.inclusive = true <;> simp [hc] at hb h1 <;> omega
      refine ⟨⟨?_, ?_⟩, ?_⟩
      · exact (ceil_progress_lt_iff_neg hneg hdb b).mpr hxb
      · exact (le_ceil_progress_iff_neg hneg hdb a).mpr hxa
      · exact dvd_sub_ceil_progress hdb a
  · simp only [if_pos hpos]
    set a := if t.lbound.inclusive then t.lbound.number else t.lbound.number + 1 with ha
    set b := if t.ubound.inclusive then t.ubound.number + 1 else t.ubound.number with hb
    constructor
    · rintro ⟨⟨h1, h2⟩, hd⟩
      have hdb : t.step ∣ x - t.base := by
        have hcp := ceil_progress_dvd a t.step t.base
        have he : x - t.base =
            (x - ceil_progress a t.step t.base) + (ceil_progress a t.step t.base - t.base) := by
          ring
        rw [he]
        exact dvd_add hd hcp
      have hxa := (ceil_progress_le_iff_pos hpos hdb a).mp h1
      have hxb := (lt_ceil_progress_iff_pos hpos hdb b).mp h2
      refine ⟨?_, ?_, hdb⟩
      · by_cases hc : t.lbound.inclusive = true <;> simp [hc] at ha ⊢ <;> omega
      · by_cases hc : t.ubound.inclusive = true <;> simp [hc] at hb ⊢ <;> omega
    · rintro ⟨h1, h2, hdb⟩
      have hxa : a ≤ x := by
        by_cases hc : t.lbound.inclusive = true <;> simp [hc] at ha h1 <;> omega
      have hxb : x < b := by
        by_cases hc : t.ubound.inclusive = true <;> simp [hc] at hb h2 <;> omega
      refine ⟨⟨?_, ?_⟩, ?_⟩
      · exact (ceil_progress_le_iff_pos hpos hdb a).mpr hxa
      · exact (lt_ceil_progress_iff_pos hpos hdb b).mpr hxb
      · exact dvd_sub_ceil_progress hdb a

/-- Shifting the base by a multiple of the step does not change `ceil_progress`. -/
theorem ceil_progress_base_shift (x step base k : Int) (h : step ≠ 0) :
    ceil_progress x step (base + k * step) = ceil_progress x step base := by
  unfold ceil_progress
  have he : x - (base + k * step) = (x - base) + k * -step := by ring
  rw [he, add_mul_fdiv k (by omega : (-step) ≠ 0)]
  ring

/-- Shifting the base by a multiple of the step leaves the canonical range
literally unchanged (same start, stop, and step). -/
theorem lusb_tuple_to_range_base_shift (t : LusbTuple) (h : t.step ≠ 0) (k : Int) :
    lusb_tuple_to_range ⟨t.lbound, t.ubound, t.step, t.base + k * t.step⟩ =
      lusb_tuple_to_range t := by
  rw [lusb_tuple_to_range_eq, lusb_tuple_to_range_eq]
  dsimp only
  rw [ceil_progress_base_shift _ _ _ _ h, ceil_progress_base_shift _ _ _ _ h]

/-- Python range equality is equality of the iterated sequences. -/
theorem rangeEquals_iff (r0 r1 : PyRange) :
    rangeEquals r0 r1 = true ↔ rangeList r0 = rangeList r1 := by
  have hn0 := rangeLen_nonneg r0
  have hn1 := rangeLen_nonneg r1
  constructor
  · intro h
    unfold rangeEquals at h
    split_ifs at h with c1 c2 c3 c4
    · push_neg at c1
      have e0 : rangeList r0 = [] := by
        apply List.eq_nil_of_length_eq_zero
        rw [rangeList_length, c2]
        rfl
      have e1 : rangeList r1 = [] := by
        apply List.eq_nil_of_length_eq_zero
        rw [rangeList_length, ← c1, c2]
        rfl
      rw [e0, e1]
    · push_neg at c1 c3
      have hlen : (rangeList r0).length = (rangeList r1).length := by
        rw [rangeList_length, rangeList_length, c1]
      apply List.ext_getElem hlen
      intro i hi0 hi1
      have hz : i = 0 := by
        rw [rangeList_length, c4] at hi0
        omega
      subst hz
      rw [rangeList_getElem _ _ hi0, rangeList_getElem _ _ hi1, c3]
      simp
    · push_neg at c1 c3
      replace h := of_decide_eq_true h
      have hlen : (rangeList r0).length = (rangeList r1).length := by
        rw [rangeList_length, rangeList_length, c1]
      apply List.ext_getElem hlen
      intro i hi0 hi1
      rw [rangeList_getElem _ _ hi0, rangeList_getElem _ _ hi1, c3, h]
  · intro hl
    have hlen : (rangeList r0).length = (rangeList r1).length := by rw [hl]
    rw [rangeList_length, rangeList_length] at hlen
    have hleneq : rangeLen r0 = rangeLen r1 := by omega
    unfold rangeEquals
    split_ifs with c1 c2 c3 c4
    · exact absurd hleneq c1
    · rfl
    · exfalso
      have hi0 : 0 < (rangeList r0).length := by
        rw [rangeList_length]
        omega
      have hi1 : 0 < (rangeList r1).length := by
        rw [rangeList_length]
        omega
      have hgets : (rangeList r0)[0] = (rangeList r1)[0] := List.getElem_of_eq hl hi0
      rw [rangeList_getElem _ _ hi0, rangeList_getElem _ _ hi1] at hgets
      omega
    · rfl
    · apply decide_eq_true
      have hi0 : 1 < (rangeList r0).length := by
        rw [rangeList_length]
        omega
      have hi1 : 1 < (rangeList r1).length := by
        rw [rangeList_length]
        omega
      have hgets : (rangeList r0)[1] = (rangeList r1)[1] := List.getElem_of_eq hl hi0
      rw [rangeList_getElem _ _ hi0, rangeList_getElem _ _ hi1] at hgets
      have hz0 : 0 < (rangeList r0).length := by omega
      have hz1 : 0 < (rangeList r1).length := by omega
      have hgets0 : (rangeList r0)[0] = (rangeList r1)[0] := List.getElem_of_eq hl hz0
      rw [rangeList_getElem _ _ hz0, rangeList_getElem _ _ hz1] at hgets0
      omega

/-- `ceil_progress` at the base itself is the identity. -/
theorem ceil_progress_self (x step : Int) : ceil_progress x step x = x := by
  unfold ceil_progress
  simp

/-- `ceil_progress` fixes lattice points. -/
theorem ceil_progress_of_dvd {x step base : Int} (h : step ≠ 0) (hd : step ∣ x - base) :
    ceil_progress x step base = x := by
  have hdd : step ∣ ceil_progress x step base - x := by
    have h2 := dvd_neg.mpr (dvd_sub_ceil_progress hd x)
    rwa [neg_sub] at h2
  rcases lt_or_gt_of_ne h with hneg | hpos
  · have hb := ceil_progress_bounds_neg hneg x base
    by_contra hne
    have hlt : ceil_progress x step base < x := by omega
    have hdd2 : -step ∣ x - ceil_progress x step base := by
      have h2 := dvd_neg.mpr hdd
      have he : -(ceil_progress x step base - x) = x - ceil_progress x step base := by ring
      rw [he] at h2
      exact (neg_dvd).mpr h2
    have := lattice_step_separation hdd2 (by omega) hlt
    omega
  · have hb := ceil_progress_bounds_pos hpos x base
    by_contra hne
    have hlt : x < ceil_progress x step base := by omega
    have := lattice_step_separation hdd hpos hlt
    omega

/-- The canonical range produced by `from_range` keeps the start and step and
rounds the stop up (in progress) to the lattice through the start. -/
theorem from_range_ok (r : PyRange) (h : r.step ≠ 0) :
    Lusbir.from_range r =
      .ok (mkLusbir (if 0 < r.step then ⟨⟨r.start, true⟩, ⟨r.stop, false⟩, r.step, r.start⟩
                     else ⟨⟨r.stop, false⟩, ⟨r.start, true⟩, r.step, r.start⟩)) := by
  unfold Lusbir.from_range
  split_ifs with hpos
  · show init_from_lusb_tuple ⟨⟨r.start, true⟩, ⟨r.stop, false⟩, r.step, r.start⟩ = _
    unfold init_from_lusb_tuple
    rw [if_neg h]
  · show init_from_lusb_tuple ⟨⟨r.stop, false⟩, ⟨r.start, true⟩, r.step, r.start⟩ = _
    unfold init_from_lusb_tuple
    rw [if_neg h]

/-- The canonical range of the lusb tuple built by `from_range`. -/
theorem from_range_tuple_range (r : PyRange) (h : r.step ≠ 0) :
    lusb_tuple_to_range (if 0 < r.step then ⟨⟨r.start, true⟩, ⟨r.stop, false⟩, r.step, r.start⟩
                         else ⟨⟨r.stop, false⟩, ⟨r.start, true⟩, r.step, r.start⟩) =
      ⟨r.start, ceil_progress r.stop r.step r.start, r.step⟩ := by
  split_ifs with hpos
  · rw [lusb_tuple_to_range_eq]
    dsimp only
    rw [if_pos hpos, if_pos hpos]
    simp [ceil_progress_self]
  · rw [lusb_tuple_to_range_eq]
    dsimp only
    rw [if_neg hpos, if_neg hpos]
    simp [ceil_progress_self]

/-- Rounding the stop of a range up to the lattice through its start does not
change its length. -/
theorem rangeLen_ceil_stop (r : PyRange) (h : r.step ≠ 0) :
    rangeLen ⟨r.start, ceil_progress r.stop r.step r.start, r.step⟩ = rangeLen r := by
  apply len_unique (rangeLen_nonneg _) (rangeLen_nonneg _)
    (fun i => dirLt r.step (r.start + i * r.step) r.stop)
  · intro i hi
    rw [rangeLen_iff (r := ⟨r.start, ceil_progress r.stop r.step r.start, r.step⟩) h hi]
    have hd : r.step ∣ (r.start + i * r.step) - r.start := ⟨i, by ring⟩
    dsimp only
    unfold dirLt
    rcases lt_or_gt_of_ne h with hneg | hpos
    · rw [if_neg (by omega), if_neg (by omega)]
      exact ceil_progress_lt_iff_neg hneg hd r.stop
    · rw [if_pos hpos, if_pos hpos]
      exact lt_ceil_progress_iff_pos hpos hd r.stop
  · intro i hi
    exact rangeLen_iff h hi

/-- Ranges with equal start, step, and length iterate to the same list. -/
theorem rangeList_congr {r0 r1 : PyRange} (hstart : r0.start = r1.start)
    (hstep : r0.step = r1.step) (hlen : rangeLen r0 = rangeLen r1) :
    rangeList r0 = rangeList r1 := by
  unfold rangeList
  rw [hstart, hstep, hlen]

theorem rangeList_getD (r : PyRange) (n : Nat) (hn : n < (rangeList r).length) :
    (rangeList r).getD n 0 = r.start + (n : Int) * r.step := by
  rw [List.getD_eq_getElem?_getD, List.getElem?_eq_getElem hn, Option.getD_some]
  exact rangeList_getElem r n hn

/-- An in-bounds integer subscript (after Python's negative-index adjustment)
selects `start + i' * step`. -/
theorem rangeGetItemInt_some {r : PyRange} {i : Int} (h1 : -(rangeLen r) ≤ i)
    (h2 : i < rangeLen r) :
    rangeGetItemInt r i =
      some (r.start + (if i < 0 then i + rangeLen r else i) * r.step) := by
  unfold rangeGetItemInt
  dsimp only
  split_ifs <;> first | rfl | omega

/-- An out-of-bounds integer subscript yields `none` (Python `IndexError`). -/
theorem rangeGetItemInt_none {r : PyRange} {i : Int} (h : i < -(rangeLen r) ∨ rangeLen r ≤ i) :
    rangeGetItemInt r i = none := by
  unfold rangeGetItemInt
  dsimp only
  split_ifs <;> first | rfl | omega

/-- Slice resolution never errors when the effective step is nonzero, and clamps
both indices into the window appropriate for the step's direction. -/
theorem sliceIndices_ok {s : PySlice} {L : Int} (hL : 0 ≤ L) {istart istop istep : Int}
    (h : sliceIndices s L = .ok (istart, istop, istep)) :
    istep ≠ 0 ∧
      (0 < istep → 0 ≤ istart ∧ istart ≤ L ∧ 0 ≤ istop ∧ istop ≤ L) ∧
      (istep < 0 → -1 ≤ istart ∧ istart ≤ L - 1 ∧ -1 ≤ istop ∧ istop ≤ L - 1) := by
  rcases s with ⟨sstart, sstop, sstep⟩
  rcases sstart with _ | v <;> rcases sstop with _ | w <;>
    · unfold sliceIndices at h
      dsimp only at h
      split_ifs at h <;>
        first
        | exact Except.noConfusion h
        | (rw [Except.ok.injEq, Prod.mk.injEq, Prod.mk.injEq] at h
           obtain ⟨h1, h2, h3⟩ := h
           subst h1
           subst h2
           subst h3
           omega)

/-- The slice length of resolved indices is the length of the corresponding range. -/
theorem sliceLength_eq_rangeLen (istart istop istep : Int) (h : istep ≠ 0) :
    sliceLength istart istop istep = rangeLen ⟨istart, istop, istep⟩ := by
  unfold sliceLength rangeLen
  dsimp only
  rcases lt_or_gt_of_ne h with hneg | hpos
  · rw [if_pos hneg, if_neg (by omega : ¬0 < istep)]
    split_ifs <;> first | rfl | omega
  · rw [if_neg (by omega : ¬istep < 0), if_pos hpos]
    split_ifs <;> first | rfl | omega

/-- An affine change of variables with a nonzero scale factor transports the
direction-aware comparison. -/
theorem dirLt_affine {rs is : Int} (hrs : rs ≠ 0) (his : is ≠ 0) (a u v : Int) :
    dirLt (rs * is) (a + u * rs) (a + v * rs) ↔ dirLt is u v := by
  unfold dirLt
  rcases lt_or_gt_of_ne hrs with h1 | h1 <;> rcases lt_or_gt_of_ne his with h2 | h2
  · rw [if_pos (mul_pos_of_neg_of_neg h1 h2), if_neg (by omega : ¬0 < is)]
    constructor
    · intro hh
      have : u * rs < v * rs := by omega
      exact ((mul_lt_mul_right_of_neg h1).mp this)
    · intro hh
      have : u * rs < v * rs := (mul_lt_mul_right_of_neg h1).mpr hh
      omega
  · rw [if_neg (by nlinarith : ¬0 < rs * is), if_pos h2]
    constructor
    · intro hh
      have : v * rs < u * rs := by omega
      exact ((mul_lt_mul_right_of_neg h1).mp this)
    · intro hh
      have : v * rs < u * rs := (mul_lt_mul_right_of_neg h1).mpr hh
      omega
  · rw [if_neg (by nlinarith : ¬0 < rs * is), if_neg (by omega : ¬0 < is)]
    constructor
    · intro hh
      have : v * rs < u * rs := by omega
      exact ((mul_lt_mul_right h1).mp this)
    · intro hh
      have : v * rs < u * rs := (mul_lt_mul_right h1).mpr hh
      omega
  · rw [if_pos (by positivity : 0 < rs * is), if_pos h2]
    constructor
    · intro hh
      have : u * rs < v * rs := by omega
      exact ((mul_lt_mul_right h1).mp this)
    · intro hh
      have : u * rs < v * rs := (mul_lt_mul_right h1).mpr hh
      omega

/-- Slicing a Python range and iterating the result gives the same list as
slicing the iterated list of the range (with the same slice), including the
agreement of the zero-step error. -/
theorem rangeGetSlice_list {r : PyRange} (h : r.step ≠ 0) (s : PySlice) :
    (rangeGetSlice r s).map rangeList = listSlice (rangeList r) s := by
  have hL : ((rangeList r).length : Int) = rangeLen r := by
    rw [rangeList_length]
    have := rangeLen_nonneg r
    omega
  rcases hsi : sliceIndices s (rangeLen r) with e | ⟨istart, istop, istep⟩
  · have l1 : rangeGetSlice r s = .error e := by
      unfold rangeGetSlice
      rw [hsi]
    have l2 : listSlice (rangeList r) s = .error e := by
      unfold listSlice
      rw [hL, hsi]
    rw [l1, l2]
    rfl
  · have l1 : rangeGetSlice r s =
        .ok ⟨r.start + istart * r.step, r.start + istop * r.step, r.step * istep⟩ := by
      unfold rangeGetSlice
      rw [hsi]
    have l2 : listSlice (rangeList r) s =
        .ok ((List.range (sliceLength istart istop istep).toNat).map
              fun k : Nat => (rangeList r).getD (istart + (k : Int) * istep).toNat 0) := by
      unfold listSlice
      rw [hL, hsi]
    rw [l1, l2]
    have hmap : (Except.ok (ε := PyErr)
        (⟨r.start + istart * r.step, r.start + istop * r.step, r.step * istep⟩ : PyRange)).map
        rangeList =
        .ok (rangeList ⟨r.start + istart * r.step, r.start + istop * r.step,
          r.step * istep⟩) := rfl
    rw [hmap]
    obtain ⟨histep, hbpos, hbneg⟩ := sliceIndices_ok (rangeLen_nonneg r) hsi
    have hstep2 : r.step * istep ≠ 0 := mul_ne_zero h histep
    have hchar : ∀ i : Int, 0 ≤ i →
        (i < rangeLen ⟨istart, istop, istep⟩ ↔ dirLt istep (istart + i * istep) istop) := by
      intro i hi
      exact rangeLen_iff (r := ⟨istart, istop, istep⟩) histep hi
    have hlen : rangeLen ⟨r.start + istart * r.step, r.start + istop * r.step,
        r.step * istep⟩ = sliceLength istart istop istep := by
      rw [sliceLength_eq_rangeLen _ _ _ histep]
      apply len_unique (rangeLen_nonneg _) (rangeLen_nonneg _)
        (fun i => dirLt istep (istart + i * istep) istop)
      · intro i hi
        rw [rangeLen_iff hstep2 hi]
        dsimp only
        have he : r.start + istart * r.step + i * (r.step * istep) =
            r.start + (istart + i * istep) * r.step := by ring
        rw [he]
        exact dirLt_affine h histep r.start (istart + i * istep) istop
      · exact hchar
    congr 1
    apply List.ext_getElem
    · rw [rangeList_length, hlen, List.length_map, List.length_range]
    · intro k hk1 hk2
      rw [rangeList_getElem _ _ hk1]
      rw [List.getElem_map, List.getElem_range]
      have hkS : (k : Int) < sliceLength istart istop istep := by
        rw [rangeList_length, hlen] at hk1
        have hnn : 0 ≤ sliceLength istart istop istep := by
          rw [sliceLength_eq_rangeLen _ _ _ histep]
          exact rangeLen_nonneg _
        omega
      have hdir : dirLt istep (istart + (k : Int) * istep) istop := by
        apply (hchar (k : Int) (by omega)).mp
        rw [← sliceLength_eq_rangeLen _ _ _ histep]
        exact hkS
      have hj : 0 ≤ istart + (k : Int) * istep ∧ istart + (k : Int) * istep < rangeLen r := by
        unfold dirLt at hdir
        rcases lt_or_gt_of_ne histep with hneg | hpos
        · rw [if_neg (by omega)] at hdir
          have hcl := hbneg hneg
          have hmul : (k : Int) * istep ≤ 0 :=
            mul_nonpos_of_nonneg_of_nonpos (by omega) (by omega)
          omega
        · rw [if_pos hpos] at hdir
          have hcl := hbpos hpos
          have hmul : 0 ≤ (k : Int) * istep := mul_nonneg (by omega) (by omega)
          omega
      have hjlen : (istart + (k : Int) * istep).toNat < (rangeList r).length := by
        rw [rangeList_length]
        omega
      rw [rangeList_getD r _ hjlen]
      have hjN : (((istart + (k : Int) * istep).toNat : Nat) : Int) =
          istart + (k : Int) * istep := by omega
      rw [hjN]
      dsimp only
      ring

/-- Two `ceil_progress` values over the same lattice differ by a multiple of the
step. -/
theorem ceil_progress_sub_dvd (x y step base : Int) :
    step ∣ ceil_progress x step base - ceil_progress y step base := by
  have hd := dvd_sub (ceil_progress_dvd x step base) (ceil_progress_dvd y step base)
  have he : (ceil_progress x step base - base) - (ceil_progress y step base - base) =
      ceil_progress x step base - ceil_progress y step base := by ring
  rwa [he] at hd

/-- The canonical range of a lusb tuple has a stop congruent to its start
modulo the step. -/
theorem lusb_range_dvd (t : LusbTuple) :
    t.step ∣ (lusb_tuple_to_range t).stop - (lusb_tuple_to_range t).start := by
  rw [lusb_tuple_to_range_eq]
  dsimp only
  exact ceil_progress_sub_dvd _ _ _ _

/-- When the stop of a range is congruent to its start and the range is nonempty,
the difference `stop - start` is exactly `length * step`. -/
theorem rangeLen_eq_exact {r : PyRange} (h : r.step ≠ 0) (hd : r.step ∣ r.stop - r.start)
    (hpos : 0 < rangeLen r) : r.stop - r.start = rangeLen r * r.step := by
  obtain ⟨m, hm⟩ := hd
  have hL0 := rangeLen_nonneg r
  have hnd : ¬ dirLt r.step (r.start + rangeLen r * r.step) r.stop := by
    rw [← rangeLen_iff h (by omega : (0:Int) ≤ rangeLen r)]
    omega
  have hd2 : dirLt r.step (r.start + (rangeLen r - 1) * r.step) r.stop := by
    rw [← rangeLen_iff h (by omega : (0:Int) ≤ rangeLen r - 1)]
    omega
  unfold dirLt at hnd hd2
  have e1 : (rangeLen r - 1) * r.step = rangeLen r * r.step - r.step := by ring
  have e2 : r.step * m = m * r.step := by ring
  rcases lt_or_gt_of_ne h with hneg | hposs
  · rw [if_neg (by omega)] at hnd hd2
    push_neg at hnd
    have hmL : m ≤ rangeLen r := by
      by_contra hc
      push_neg at hc
      have := (mul_lt_mul_right_of_neg hneg).mpr hc
      omega
    have hLm : rangeLen r ≤ m := by
      have := (mul_lt_mul_right_of_neg hneg).mp
        (show m * r.step < (rangeLen r - 1) * r.step by omega)
      omega
    have hme : m = rangeLen r := by omega
    subst hme
    omega
  · rw [if_pos hposs] at hnd hd2
    push_neg at hnd
    have hmL : m ≤ rangeLen r := by
      by_contra hc
      push_neg at hc
      have := (mul_lt_mul_right hposs).mpr hc
      omega
    have hLm : rangeLen r ≤ m := by
      have := (mul_lt_mul_right hposs).mp
        (show (rangeLen r - 1) * r.step < m * r.step by omega)
      omega
    have hme : m = rangeLen r := by omega
    subst hme
    omega

/-- An empty range has its stop not after its start in the step's direction. -/
theorem rangeLen_zero_dir {r : PyRange} (h : r.step ≠ 0)
    (hz : rangeLen r = 0) :
    (0 < r.step → r.stop ≤ r.start) ∧ (r.step < 0 → r.start ≤ r.stop) := by
  have hnd : ¬ dirLt r.step (r.start + 0 * r.step) r.stop := by
    rw [← rangeLen_iff h (by omega : (0:Int) ≤ 0)]
    omega
  unfold dirLt at hnd
  constructor
  · intro hp
    rw [if_pos hp] at hnd
    omega
  · intro hn
    rw [if_neg (by omega)] at hnd
    omega

/-- The two bound-type dictionaries are mutually inverse. -/
theorem bound_type_roundtrip (b1 b2 : Bool) :
    bound_type_to_inclusivities (inclusivities_to_bound_type b1 b2) = some (b1, b2) := by
  rcases b1 <;> rcases b2 <;> rfl

/- ### Claim theorems -/

/-- C1: for every constructed lusbir and every integer x, x appears in the
iterated sequence iff x satisfies the lower bound per its inclusivity, the upper
bound per its inclusivity, and `(x - base) mod step == 0`. -/
theorem claim_C1_inclusion (t : LusbTuple) (h : t.step ≠ 0) (x : Int) :
    x ∈ (mkLusbir t).list ↔ lusbMember t x :=
  mem_lusb_range_iff h x

theorem claim_C1_inclusion_witness :
    ((⟨⟨0, true⟩, ⟨10, false⟩, 2, 1⟩ : LusbTuple).step ≠ 0) ∧
      ((3 : Int) ∈ (mkLusbir ⟨⟨0, true⟩, ⟨10, false⟩, 2, 1⟩).list ↔
        lusbMember ⟨⟨0, true⟩, ⟨10, false⟩, 2, 1⟩ 3) :=
  ⟨by decide, claim_C1_inclusion ⟨⟨0, true⟩, ⟨10, false⟩, 2, 1⟩ (by decide) 3⟩

/-- C2 counterexample: `Lusbir(10, 0)` and `Lusbir(5, 3)` compare equal (their
canonical ranges are both empty, and Python range equality is sequence
equality), yet their canonical ranges (10,0,1) and (5,3,1) have different
starts and stops. -/
theorem claim_C2_counterexample :
    init_from_lusb_tuple ⟨⟨10, true⟩, ⟨0, false⟩, 1, 0⟩ =
      .ok (mkLusbir ⟨⟨10, true⟩, ⟨0, false⟩, 1, 0⟩) ∧
    init_from_lusb_tuple ⟨⟨5, true⟩, ⟨3, false⟩, 1, 0⟩ =
      .ok (mkLusbir ⟨⟨5, true⟩, ⟨3, false⟩, 1, 0⟩) ∧
    Lusbir.eq (mkLusbir ⟨⟨10, true⟩, ⟨0, false⟩, 1, 0⟩)
      (mkLusbir ⟨⟨5, true⟩, ⟨3, false⟩, 1, 0⟩) = true ∧
    ¬ ((mkLusbir ⟨⟨10, true⟩, ⟨0, false⟩, 1, 0⟩).toRange.start =
          (mkLusbir ⟨⟨5, true⟩, ⟨3, false⟩, 1, 0⟩).toRange.start ∧
        (mkLusbir ⟨⟨10, true⟩, ⟨0, false⟩, 1, 0⟩).toRange.stop =
          (mkLusbir ⟨⟨5, true⟩, ⟨3, false⟩, 1, 0⟩).toRange.stop ∧
        (mkLusbir ⟨⟨10, true⟩, ⟨0, false⟩, 1, 0⟩).toRange.step =
          (mkLusbir ⟨⟨5, true⟩, ⟨3, false⟩, 1, 0⟩).toRange.step) := by
  decide

/-- C2 amended: equality of two constructed lusbirs holds iff their canonical
ranges represent the same iterated sequence (Python range equality), not iff
the (start, stop, step) triples coincide. -/
theorem claim_C2_amended (t1 t2 : LusbTuple) (h1 : t1.step ≠ 0) (h2 : t2.step ≠ 0) :
    Lusbir.eq (mkLusbir t1) (mkLusbir t2) = true ↔
      (mkLusbir t1).list = (mkLusbir t2).list :=
  rangeEquals_iff _ _

theorem claim_C2_amended_witness :
    ((⟨⟨10, true⟩, ⟨0, false⟩, 1, 0⟩ : LusbTuple).step ≠ 0) ∧
    ((⟨⟨5, true⟩, ⟨3, false⟩, 1, 0⟩ : LusbTuple).step ≠ 0) ∧
    (Lusbir.eq (mkLusbir ⟨⟨10, true⟩, ⟨0, false⟩, 1, 0⟩)
        (mkLusbir ⟨⟨5, true⟩, ⟨3, false⟩, 1, 0⟩) = true ↔
      (mkLusbir ⟨⟨10, true⟩, ⟨0, false⟩, 1, 0⟩).list =
        (mkLusbir ⟨⟨5, true⟩, ⟨3, false⟩, 1, 0⟩).list) :=
  ⟨by decide, by decide,
    claim_C2_amended ⟨⟨10, true⟩, ⟨0, false⟩, 1, 0⟩ ⟨⟨5, true⟩, ⟨3, false⟩, 1, 0⟩
      (by decide) (by decide)⟩

/-- C3 counterexample: for the constructed lusbir with lusb tuple
((10, incl), (0, excl), 1, 0) the canonical range is (10, 0, 1): it is empty,
but its start and stop differ, and `stop - start = -10` does not have the same
sign as the step 1 -- the claimed disjunction fails. -/
theorem claim_C3_counterexample :
    init_from_lusb_tuple ⟨⟨10, true⟩, ⟨0, false⟩, 1, 0⟩ =
      .ok (mkLusbir ⟨⟨10, true⟩, ⟨0, false⟩, 1, 0⟩) ∧
    (mkLusbir ⟨⟨10, true⟩, ⟨0, false⟩, 1, 0⟩).toRange = ⟨10, 0, 1⟩ ∧
    ¬ (((mkLusbir ⟨⟨10, true⟩, ⟨0, false⟩, 1, 0⟩).toRange.step ∣
          (mkLusbir ⟨⟨10, true⟩, ⟨0, false⟩, 1, 0⟩).toRange.stop -
            (mkLusbir ⟨⟨10, true⟩, ⟨0, false⟩, 1, 0⟩).toRange.start) ∧
        ((0 < (mkLusbir ⟨⟨10, true⟩, ⟨0, false⟩, 1, 0⟩).toRange.stop -
              (mkLusbir ⟨⟨10, true⟩, ⟨0, false⟩, 1, 0⟩).toRange.start ∧
            0 < (mkLusbir ⟨⟨10, true⟩, ⟨0, false⟩, 1, 0⟩).toRange.step) ∨
          ((mkLusbir ⟨⟨10, true⟩, ⟨0, false⟩, 1, 0⟩).toRange.stop -
              (mkLusbir ⟨⟨10, true⟩, ⟨0, false⟩, 1, 0⟩).toRange.start < 0 ∧
            (mkLusbir ⟨⟨10, true⟩, ⟨0, false⟩, 1, 0⟩).toRange.step < 0)) ∨
        ((mkLusbir ⟨⟨10, true⟩, ⟨0, false⟩, 1, 0⟩).toRange.start =
            (mkLusbir ⟨⟨10, true⟩, ⟨0, false⟩, 1, 0⟩).toRange.stop ∧
          (mkLusbir ⟨⟨10, true⟩, ⟨0, false⟩, 1, 0⟩).len = 0)) := by
  decide

/-- C3 amended: `stop - start` is always a multiple of step; when the canonical
range is nonempty it equals `count * step` and has the same sign as step; when
it is empty the stop does not come after the start in the step's direction, but
start and stop need not be equal. -/
theorem claim_C3_amended (t : LusbTuple) (h : t.step ≠ 0) :
    (t.step ∣ (mkLusbir t).toRange.stop - (mkLusbir t).toRange.start) ∧
    (0 < (mkLusbir t).len →
      (mkLusbir t).toRange.stop - (mkLusbir t).toRange.start = (mkLusbir t).len * t.step ∧
      ((0 < (mkLusbir t).toRange.stop - (mkLusbir t).toRange.start ∧ 0 < t.step) ∨
        ((mkLusbir t).toRange.stop - (mkLusbir t).toRange.start < 0 ∧ t.step < 0))) ∧
    ((mkLusbir t).len = 0 →
      (0 < t.step → (mkLusbir t).toRange.stop ≤ (mkLusbir t).toRange.start) ∧
      (t.step < 0 → (mkLusbir t).toRange.start ≤ (mkLusbir t).toRange.stop)) := by
  have hdvd := lusb_range_dvd t
  refine ⟨hdvd, ?_, ?_⟩
  · intro hp
    have hex := rangeLen_eq_exact (r := lusb_tuple_to_range t) h hdvd hp
    rw [show (lusb_tuple_to_range t).step = t.step from rfl] at hex
    refine ⟨hex, ?_⟩
    have hL1 : 1 ≤ rangeLen (lusb_tuple_to_range t) := hp
    rcases lt_or_gt_of_ne h with hneg | hpos
    · right
      refine ⟨?_, hneg⟩
      have : rangeLen (lusb_tuple_to_range t) * t.step ≤ 1 * t.step :=
        mul_le_mul_of_nonpos_right hL1 (by omega)
      have he : (1 : Int) * t.step = t.step := one_mul _
      show (lusb_tuple_to_range t).stop - (lusb_tuple_to_range t).start < 0
      omega
    · left
      refine ⟨?_, hpos⟩
      have : 1 * t.step ≤ rangeLen (lusb_tuple_to_range t) * t.step :=
        mul_le_mul_of_nonneg_right hL1 (by omega)
      have he : (1 : Int) * t.step = t.step := one_mul _
      show 0 < (lusb_tuple_to_range t).stop - (lusb_tuple_to_range t).start
      omega
  · intro hz
    exact rangeLen_zero_dir h hz

theorem claim_C3_amended_witness :
    ((⟨⟨0, true⟩, ⟨10, false⟩, 2, 1⟩ : LusbTuple).step ≠ 0) ∧
    (((⟨⟨0, true⟩, ⟨10, false⟩, 2, 1⟩ : LusbTuple).step ∣
        (mkLusbir ⟨⟨0, true⟩, ⟨10, false⟩, 2, 1⟩).toRange.stop -
          (mkLusbir ⟨⟨0, true⟩, ⟨10, false⟩, 2, 1⟩).toRange.start) ∧
      (0 < (mkLusbir ⟨⟨0, true⟩, ⟨10, false⟩, 2, 1⟩).len →
        (mkLusbir ⟨⟨0, true⟩, ⟨10, false⟩, 2, 1⟩).toRange.stop -
            (mkLusbir ⟨⟨0, true⟩, ⟨10, false⟩, 2, 1⟩).toRange.start =
          (mkLusbir ⟨⟨0, true⟩, ⟨10, false⟩, 2, 1⟩).len *
            (⟨⟨0, true⟩, ⟨10, false⟩, 2, 1⟩ : LusbTuple).step ∧
        ((0 < (mkLusbir ⟨⟨0, true⟩, ⟨10, false⟩, 2, 1⟩).toRange.stop -
              (mkLusbir ⟨⟨0, true⟩, ⟨10, false⟩, 2, 1⟩).toRange.start ∧
            0 < (⟨⟨0, true⟩, ⟨10, false⟩, 2, 1⟩ : LusbTuple).step) ∨
          ((mkLusbir ⟨⟨0, true⟩, ⟨10, false⟩, 2, 1⟩).toRange.stop -
              (mkLusbir ⟨⟨0, true⟩, ⟨10, false⟩, 2, 1⟩).toRange.start < 0 ∧
            (⟨⟨0, true⟩, ⟨10, false⟩, 2, 1⟩ : LusbTuple).step < 0))) ∧
      ((mkLusbir ⟨⟨0, true⟩, ⟨10, false⟩, 2, 1⟩).len = 0 →
        (0 < (⟨⟨0, true⟩, ⟨10, false⟩, 2, 1⟩ : LusbTuple).step →
          (mkLusbir ⟨⟨0, true⟩, ⟨10, false⟩, 2, 1⟩).toRange.stop ≤
            (mkLusbir ⟨⟨0, true⟩, ⟨10, false⟩, 2, 1⟩).toRange.start) ∧
        ((⟨⟨0, true⟩, ⟨10, false⟩, 2, 1⟩ : LusbTuple).step < 0 →
          (mkLusbir ⟨⟨0, true⟩, ⟨10, false⟩, 2, 1⟩).toRange.start ≤
            (mkLusbir ⟨⟨0, true⟩, ⟨10, false⟩, 2, 1⟩).toRange.stop))) :=
  ⟨by decide, claim_C3_amended ⟨⟨0, true⟩, ⟨10, false⟩, 2, 1⟩ (by decide)⟩

/-- C8: replacing the base by base + k*step (any integer k, including bases
outside [0, |step|) and negative bases) produces a lusbir with literally the
same canonical range, hence the same iterated sequence. -/
theorem claim_C8_base_shift (t : LusbTuple) (h : t.step ≠ 0) (k : Int) :
    (mkLusbir ⟨t.lbound, t.ubound, t.step, t.base + k * t.step⟩).toRange =
      (mkLusbir t).toRange ∧
    (mkLusbir ⟨t.lbound, t.ubound, t.step, t.base + k * t.step⟩).list =
      (mkLusbir t).list := by
  have he := lusb_tuple_to_range_base_shift t h k
  refine ⟨he, ?_⟩
  show rangeList (lusb_tuple_to_range ⟨t.lbound, t.ubound, t.step, t.base + k * t.step⟩) =
    rangeList (lusb_tuple_to_range t)
  rw [he]

theorem claim_C8_base_shift_witness :
    ((⟨⟨-50, true⟩, ⟨50, false⟩, 10, 9⟩ : LusbTuple).step ≠ 0) ∧
    ((mkLusbir ⟨(⟨-50, true⟩ : Bound), (⟨50, false⟩ : Bound), 10,
        (9 : Int) + 100 * 10⟩).toRange =
      (mkLusbir ⟨⟨-50, true⟩, ⟨50, false⟩, 10, 9⟩).toRange ∧
    (mkLusbir ⟨(⟨-50, true⟩ : Bound), (⟨50, false⟩ : Bound), 10,
        (9 : Int) + 100 * 10⟩).list =
      (mkLusbir ⟨⟨-50, true⟩, ⟨50, false⟩, 10, 9⟩).list) :=
  ⟨by decide, claim_C8_base_shift ⟨⟨-50, true⟩, ⟨50, false⟩, 10, 9⟩ (by decide) 100⟩

/-- C4 counterexample: `from_range(range(0, 5, 2))` stores canonical range
(0, 6, 2), so converting back does not reproduce the stop 5 exactly. -/
theorem claim_C4_counterexample :
    (Lusbir.from_range ⟨0, 5, 2⟩).map Lusbir.toRange = .ok ⟨0, 6, 2⟩ ∧
    (⟨0, 6, 2⟩ : PyRange) ≠ ⟨0, 5, 2⟩ := by
  decide

/-- C4 amended: the from_range/to_range round trip reproduces the start and the
step exactly and yields a range representing the same iterated sequence; the
stop is reproduced exactly -- indeed the whole range -- if and only if
`stop - start` is a multiple of the step (the stored stop always lies on the
lattice through the start, so a non-congruent stop is never reproduced). -/
theorem claim_C4_amended (r : PyRange) (h : r.step ≠ 0) :
    ∃ l : Lusbir, Lusbir.from_range r = .ok l ∧
      l.toRange.start = r.start ∧ l.toRange.step = r.step ∧
      rangeList l.toRange = rangeList r ∧
      (r.step ∣ r.stop - r.start ↔ l.toRange = r) := by
  refine ⟨_, from_range_ok r h, ?_⟩
  have ht := from_range_tuple_range r h
  show (lusb_tuple_to_range _).start = r.start ∧ (lusb_tuple_to_range _).step = r.step ∧
    rangeList (lusb_tuple_to_range _) = rangeList r ∧
    (r.step ∣ r.stop - r.start ↔ lusb_tuple_to_range _ = r)
  rw [ht]
  refine ⟨rfl, rfl, ?_, ?_, ?_⟩
  · exact rangeList_congr rfl rfl (rangeLen_ceil_stop r h)
  · intro hd
    rw [ceil_progress_of_dvd h hd]
  · intro he
    have hstop : ceil_progress r.stop r.step r.start = r.stop := congrArg PyRange.stop he
    have hd := ceil_progress_dvd r.stop r.step r.start
    rw [hstop] at hd
    exact hd

theorem claim_C4_amended_witness :
    ((⟨0, 5, 2⟩ : PyRange).step ≠ 0) ∧
    (∃ l : Lusbir, Lusbir.from_range ⟨0, 5, 2⟩ = .ok l ∧
      l.toRange.start = (⟨0, 5, 2⟩ : PyRange).start ∧
      l.toRange.step = (⟨0, 5, 2⟩ : PyRange).step ∧
      rangeList l.toRange = rangeList ⟨0, 5, 2⟩ ∧
      ((⟨0, 5, 2⟩ : PyRange).step ∣ (⟨0, 5, 2⟩ : PyRange).stop - (⟨0, 5, 2⟩ : PyRange).start ↔
        l.toRange = ⟨0, 5, 2⟩)) :=
  ⟨by decide, claim_C4_amended ⟨0, 5, 2⟩ (by decide)⟩

/-- C5: on every construction path whose resolved step is 0 -- the two- and
three-or-more-argument positional shapes with or without an explicit base, the
bound-type-tag shapes with a recognized tag, and the from-lusb-tuple alternate
constructor -- construction stops with the invalid-step `ValueError` and no
lusbir value is produced (the result is the bare error). The one-argument shape
always resolves step to 1 and cannot trigger this error. -/
theorem claim_C5_zero_step (lb ub base : Int) (bt : String) (t : LusbTuple)
    (hbt : (bound_type_to_inclusivities bt).isSome = true) (ht : t.step = 0) :
    lusbirInit [.int lb, .int ub, .int 0] = .error .stepZero ∧
    lusbirInit [.int lb, .int ub, .int 0, .int base] = .error .stepZero ∧
    lusbirInit [.str bt, .int lb, .int ub, .int 0] = .error .stepZero ∧
    lusbirInit [.str bt, .int lb, .int ub, .int 0, .int base] = .error .stepZero ∧
    Lusbir.from_lusb_tuple t = .error .stepZero := by
  obtain ⟨⟨b1, b2⟩, hb⟩ := Option.isSome_iff_exists.mp hbt
  refine ⟨rfl, rfl, ?_, ?_, ?_⟩
  · simp only [lusbirInit, hb]
    rfl
  · simp only [lusbirInit, hb]
    rfl
  · unfold Lusbir.from_lusb_tuple init_from_lusb_tuple
    rw [if_pos ht]

theorem claim_C5_zero_step_witness :
    ((bound_type_to_inclusivities "[]").isSome = true) ∧
    ((⟨⟨0, true⟩, ⟨9, true⟩, 0, 4⟩ : LusbTuple).step = 0) ∧
    (lusbirInit [.int 0, .int 10, .int 0] = .error .stepZero ∧
      lusbirInit [.int 0, .int 10, .int 0, .int 3] = .error .stepZero ∧
      lusbirInit [.str "[]", .int 0, .int 10, .int 0] = .error .stepZero ∧
      lusbirInit [.str "[]", .int 0, .int 10, .int 0, .int 3] = .error .stepZero ∧
      Lusbir.from_lusb_tuple ⟨⟨0, true⟩, ⟨9, true⟩, 0, 4⟩ = .error .stepZero) :=
  ⟨by decide, by decide,
    claim_C5_zero_step 0 10 3 "[]" ⟨⟨0, true⟩, ⟨9, true⟩, 0, 4⟩ (by decide) (by decide)⟩

/-- C6: integer indexing of a constructed lusbir returns the element at the
(Python-style, negative-from-the-end) position whenever the index is inside
[-len, len), and fails with an index error carrying exactly the offending
subscript otherwise. -/
theorem claim_C6_indexing (t : LusbTuple) (h : t.step ≠ 0) (i : Int) :
    (-(mkLusbir t).len ≤ i ∧ i < (mkLusbir t).len →
      (mkLusbir t).getitem (.int i) =
        .ok (.int ((mkLusbir t).list.getD
          (if i < 0 then i + (mkLusbir t).len else i).toNat 0))) ∧
    (i < -(mkLusbir t).len ∨ (mkLusbir t).len ≤ i →
      (mkLusbir t).getitem (.int i) = .error (.indexOutOfRange i)) := by
  constructor
  · rintro ⟨h1, h2⟩
    rw [show (mkLusbir t).len = rangeLen (mkLusbir t).toRange from rfl] at h1 h2
    have hsome := rangeGetItemInt_some (r := (mkLusbir t).toRange) h1 h2
    have hL := rangeLen_nonneg (mkLusbir t).toRange
    show (match rangeGetItemInt (mkLusbir t).toRange i with
      | some v => Except.ok (GetItemResult.int v)
      | none => Except.error (PyErr.indexOutOfRange i)) =
      Except.ok (.int ((rangeList (mkLusbir t).toRange).getD
        (if i < 0 then i + rangeLen (mkLusbir t).toRange else i).toNat 0))
    rw [hsome]
    have hjlen : (if i < 0 then i + rangeLen (mkLusbir t).toRange else i).toNat <
        (rangeList (mkLusbir t).toRange).length := by
      rw [rangeList_length]
      split_ifs <;> omega
    have hgetD := rangeList_getD (mkLusbir t).toRange
      (if i < 0 then i + rangeLen (mkLusbir t).toRange else i).toNat hjlen
    rw [hgetD]
    have hcast : (((if i < 0 then i + rangeLen (mkLusbir t).toRange else i).toNat : Nat) : Int) =
        (if i < 0 then i + rangeLen (mkLusbir t).toRange else i) := by
      split_ifs <;> omega
    rw [hcast]
  · intro hout
    have hnone := rangeGetItemInt_none (r := (mkLusbir t).toRange) hout
    show (match rangeGetItemInt (mkLusbir t).toRange i with
      | some v => Except.ok (GetItemResult.int v)
      | none => Except.error (PyErr.indexOutOfRange i)) = _
    rw [hnone]

theorem claim_C6_indexing_witness :
    ((⟨⟨0, true⟩, ⟨10, false⟩, 1, 0⟩ : LusbTuple).step ≠ 0) ∧
    ((-(mkLusbir ⟨⟨0, true⟩, ⟨10, false⟩, 1, 0⟩).len ≤ (-2 : Int) ∧
        (-2 : Int) < (mkLusbir ⟨⟨0, true⟩, ⟨10, false⟩, 1, 0⟩).len →
      (mkLusbir ⟨⟨0, true⟩, ⟨10, false⟩, 1, 0⟩).getitem (.int (-2)) =
        .ok (.int ((mkLusbir ⟨⟨0, true⟩, ⟨10, false⟩, 1, 0⟩).list.getD
          (if (-2 : Int) < 0 then -2 + (mkLusbir ⟨⟨0, true⟩, ⟨10, false⟩, 1, 0⟩).len
           else -2).toNat 0))) ∧
    ((-2 : Int) < -(mkLusbir ⟨⟨0, true⟩, ⟨10, false⟩, 1, 0⟩).len ∨
        (mkLusbir ⟨⟨0, true⟩, ⟨10, false⟩, 1, 0⟩).len ≤ (-2 : Int) →
      (mkLusbir ⟨⟨0, true⟩, ⟨10, false⟩, 1, 0⟩).getitem (.int (-2)) =
        .error (.indexOutOfRange (-2)))) :=
  ⟨by decide, claim_C6_indexing ⟨⟨0, true⟩, ⟨10, false⟩, 1, 0⟩ (by decide) (-2)⟩

/-- A successfully sliced range has a nonzero step (the product of two nonzero
steps). -/
theorem rangeGetSlice_step {r : PyRange} {s : PySlice} {r2 : PyRange} (h : r.step ≠ 0)
    (hsl : rangeGetSlice r s = .ok r2) : r2.step ≠ 0 := by
  unfold rangeGetSlice at hsl
  rcases hsi : sliceIndices s (rangeLen r) with e | ⟨a, b, c⟩
  · rw [hsi] at hsl
    cases hsl
  · rw [hsi] at hsl
    obtain ⟨hc, -, -⟩ := sliceIndices_ok (rangeLen_nonneg r) hsi
    rw [Except.ok.injEq] at hsl
    rw [← hsl]
    exact mul_ne_zero h hc

/-- `from_range` succeeds on any range with nonzero step and yields a lusbir
representing the same list. -/
theorem from_range_list (r : PyRange) (h : r.step ≠ 0) :
    ∃ l : Lusbir, Lusbir.from_range r = .ok l ∧ l.list = rangeList r := by
  refine ⟨_, from_range_ok r h, ?_⟩
  show rangeList (lusb_tuple_to_range _) = rangeList r
  rw [from_range_tuple_range r h]
  exact rangeList_congr rfl rfl (rangeLen_ceil_stop r h)

/-- C7: slicing a constructed lusbir goes through `rangeGetSlice` and wraps the
sliced canonical range with `from_range`; when it succeeds, the iterated
sequence of the resulting lusbir equals the result of applying the same slice
to the iterated sequence of the original canonical range, and when it fails
(zero slice step), list slicing fails with the same error. -/
theorem claim_C7_slice (t : LusbTuple) (h : t.step ≠ 0) (s : PySlice) :
    (∀ res, (mkLusbir t).getitem (.slice s) = .ok res →
      ∃ r2 l2, rangeGetSlice (mkLusbir t).toRange s = .ok r2 ∧
        Lusbir.from_range r2 = .ok l2 ∧ res = .lusbir l2 ∧
        listSlice (mkLusbir t).list s = .ok l2.list) ∧
    (∀ e, (mkLusbir t).getitem (.slice s) = .error e →
      listSlice (mkLusbir t).list s = .error e) := by
  have hpar := rangeGetSlice_list (r := (mkLusbir t).toRange) h s
  have hdef : (mkLusbir t).getitem (.slice s) =
      (match rangeGetSlice (mkLusbir t).toRange s with
        | .error e => .error e
        | .ok r2 => (Lusbir.from_range r2).map .lusbir) := rfl
  have hlist : (mkLusbir t).list = rangeList (mkLusbir t).toRange := rfl
  constructor
  · intro res hres
    rcases hsl : rangeGetSlice (mkLusbir t).toRange s with e | r2
    · rw [hdef, hsl] at hres
      exact Except.noConfusion (show Except.error (α := GetItemResult) e = Except.ok res
        from hres)
    · obtain ⟨l2, hl2, hl2list⟩ := from_range_list r2 (rangeGetSlice_step h hsl)
      rw [hdef, hsl] at hres
      have hres2 : (Lusbir.from_range r2).map GetItemResult.lusbir = .ok res := hres
      rw [hl2] at hres2
      have hres3 : Except.ok (GetItemResult.lusbir l2) = Except.ok res := hres2
      rw [Except.ok.injEq] at hres3
      refine ⟨r2, l2, rfl, hl2, hres3.symm, ?_⟩
      rw [hsl] at hpar
      have hred2 : (Except.ok (ε := PyErr) r2).map rangeList = .ok (rangeList r2) := rfl
      rw [hred2] at hpar
      rw [hlist, ← hpar, hl2list]
  · intro e he
    rcases hsl : rangeGetSlice (mkLusbir t).toRange s with e2 | r2
    · rw [hdef, hsl] at he
      have he2 : Except.error (α := GetItemResult) e2 = Except.error e := he
      rw [Except.error.injEq] at he2
      subst he2
      rw [hsl] at hpar
      have hred : (Except.error (α := PyRange) e2).map rangeList = .error e2 := rfl
      rw [hred] at hpar
      rw [hlist, ← hpar]
    · obtain ⟨l2, hl2, -⟩ := from_range_list r2 (rangeGetSlice_step h hsl)
      rw [hdef, hsl] at he
      have he2 : (Lusbir.from_range r2).map GetItemResult.lusbir = .error e := he
      rw [hl2] at he2
      exact Except.noConfusion
        (show Except.ok (GetItemResult.lusbir l2) = Except.error e from he2)

theorem claim_C7_slice_witness :
    ((⟨⟨0, true⟩, ⟨10, false⟩, 1, 0⟩ : LusbTuple).step ≠ 0) ∧
    ((∀ res, (mkLusbir ⟨⟨0, true⟩, ⟨10, false⟩, 1, 0⟩).getitem
          (.slice ⟨some 1, some 8, some 2⟩) = .ok res →
        ∃ r2 l2, rangeGetSlice (mkLusbir ⟨⟨0, true⟩, ⟨10, false⟩, 1, 0⟩).toRange
            ⟨some 1, some 8, some 2⟩ = .ok r2 ∧
          Lusbir.from_range r2 = .ok l2 ∧ res = .lusbir l2 ∧
          listSlice (mkLusbir ⟨⟨0, true⟩, ⟨10, false⟩, 1, 0⟩).list
            ⟨some 1, some 8, some 2⟩ = .ok l2.list) ∧
      (∀ e, (mkLusbir ⟨⟨0, true⟩, ⟨10, false⟩, 1, 0⟩).getitem
          (.slice ⟨some 1, some 8, some 2⟩) = .error e →
        listSlice (mkLusbir ⟨⟨0, true⟩, ⟨10, false⟩, 1, 0⟩).list
          ⟨some 1, some 8, some 2⟩ = .error e)) :=
  ⟨by decide, claim_C7_slice ⟨⟨0, true⟩, ⟨10, false⟩, 1, 0⟩ (by decide)
    ⟨some 1, some 8, some 2⟩⟩

/-- C9: the textual reconstruction always uses the 4-way bound-type-tag
constructor form; it omits the base argument exactly when the base is 0 and the
step argument exactly when step is 1 and the base is omitted (the shortest
positional form able to reproduce the spec); parsing the reconstruction back
through the constructor yields a lusbir whose lusb tuple -- all four fields --
is identical (indeed, the whole instance is reproduced). -/
theorem claim_C9_repr (t : LusbTuple) (h : t.step ≠ 0) :
    lusbirInit ((mkLusbir t).reprArgs) = .ok (mkLusbir t) ∧
    ((mkLusbir t).reprArgs.head? =
        some (.str (inclusivities_to_bound_type t.lbound.inclusive t.ubound.inclusive)) ∧
      (bound_type_to_inclusivities
        (inclusivities_to_bound_type t.lbound.inclusive t.ubound.inclusive)).isSome = true) ∧
    ((mkLusbir t).reprArgs.length = 3 ↔ t.step = 1 ∧ t.base = 0) ∧
    ((mkLusbir t).reprArgs.length = 4 ↔ t.step ≠ 1 ∧ t.base = 0) ∧
    ((mkLusbir t).reprArgs.length = 5 ↔ t.base ≠ 0) := by
  obtain ⟨⟨lbn, lbi⟩, ⟨ubn, ubi⟩, st, ba⟩ := t
  dsimp only at h ⊢
  unfold Lusbir.reprArgs mkLusbir
  dsimp only
  split_ifs with hb h1
  · refine ⟨?_, ⟨rfl, ?_⟩, ?_, ?_, ?_⟩
    · simp only [lusbirInit, bound_type_roundtrip]
      show init_from_lusb_tuple ⟨⟨lbn, lbi⟩, ⟨ubn, ubi⟩, st, ba⟩ = _
      unfold init_from_lusb_tuple
      rw [if_neg h]
      rfl
    · rw [bound_type_roundtrip]
      rfl
    · simp [hb]
    · simp [hb]
    · simp [hb]
  · refine ⟨?_, ⟨rfl, ?_⟩, ?_, ?_, ?_⟩
    · simp only [lusbirInit, bound_type_roundtrip]
      push_neg at hb
      subst hb
      show init_from_lusb_tuple ⟨⟨lbn, lbi⟩, ⟨ubn, ubi⟩, st, 0⟩ = _
      unfold init_from_lusb_tuple
      rw [if_neg h]
      rfl
    · rw [bound_type_roundtrip]
      rfl
    · have hb2 : ba = 0 := by omega
      simp [hb2, h1]
    · have hb2 : ba = 0 := by omega
      simp [hb2, h1]
    · have hb2 : ba = 0 := by omega
      simp [hb2]
  · refine ⟨?_, ⟨rfl, ?_⟩, ?_, ?_, ?_⟩
    · simp only [lusbirInit, bound_type_roundtrip]
      push_neg at hb h1
      subst hb
      subst h1
      show init_from_lusb_tuple ⟨⟨lbn, lbi⟩, ⟨ubn, ubi⟩, 1, 0⟩ = _
      unfold init_from_lusb_tuple
      rw [if_neg h]
      rfl
    · rw [bound_type_roundtrip]
      rfl
    · have hb2 : ba = 0 := by omega
      have h12 : st = 1 := by omega
      simp [hb2, h12]
    · have hb2 : ba = 0 := by omega
      have h12 : st = 1 := by omega
      simp [hb2, h12]
    · have hb2 : ba = 0 := by omega
      simp [hb2]

theorem claim_C9_repr_witness :
    ((⟨⟨0, false⟩, ⟨10, true⟩, 1, 5⟩ : LusbTuple).step ≠ 0) ∧
    (lusbirInit ((mkLusbir ⟨⟨0, false⟩, ⟨10, true⟩, 1, 5⟩).reprArgs) =
        .ok (mkLusbir ⟨⟨0, false⟩, ⟨10, true⟩, 1, 5⟩) ∧
      ((mkLusbir ⟨⟨0, false⟩, ⟨10, true⟩, 1, 5⟩).reprArgs.head? =
          some (.str (inclusivities_to_bound_type
            (⟨⟨0, false⟩, ⟨10, true⟩, 1, 5⟩ : LusbTuple).lbound.inclusive
            (⟨⟨0, false⟩, ⟨10, true⟩, 1, 5⟩ : LusbTuple).ubound.inclusive)) ∧
        (bound_type_to_inclusivities (inclusivities_to_bound_type
          (⟨⟨0, false⟩, ⟨10, true⟩, 1, 5⟩ : LusbTuple).lbound.inclusive
          (⟨⟨0, false⟩, ⟨10, true⟩, 1, 5⟩ : LusbTuple).ubound.inclusive)).isSome = true) ∧
      ((mkLusbir ⟨⟨0, false⟩, ⟨10, true⟩, 1, 5⟩).reprArgs.length = 3 ↔
        (⟨⟨0, false⟩, ⟨10, true⟩, 1, 5⟩ : LusbTuple).step = 1 ∧
          (⟨⟨0, false⟩, ⟨10, true⟩, 1, 5⟩ : LusbTuple).base = 0) ∧
      ((mkLusbir ⟨⟨0, false⟩, ⟨10, true⟩, 1, 5⟩).reprArgs.length = 4 ↔
        (⟨⟨0, false⟩, ⟨10, true⟩, 1, 5⟩ : LusbTuple).step ≠ 1 ∧
          (⟨⟨0, false⟩, ⟨10, true⟩, 1, 5⟩ : LusbTuple).base = 0) ∧
      ((mkLusbir ⟨⟨0, false⟩, ⟨10, true⟩, 1, 5⟩).reprArgs.length = 5 ↔
        (⟨⟨0, false⟩, ⟨10, true⟩, 1, 5⟩ : LusbTuple).base ≠ 0)) :=
  ⟨by decide, claim_C9_repr ⟨⟨0, false⟩, ⟨10, true⟩, 1, 5⟩ (by decide)⟩

/-- C10: subscripting a constructed lusbir with a value that is neither an
integer nor a slice fails with a `TypeError` carrying the received type's name,
an error kind distinct from the index-out-of-range error and from each of the
other construction/lookup error kinds. -/
theorem claim_C10_subscript_type (t : LusbTuple) (h : t.step ≠ 0) (name : String) :
    (mkLusbir t).getitem (.other name) = .error (.subscriptTypeError name) ∧
    (∀ i : Int, PyErr.subscriptTypeError name ≠ PyErr.indexOutOfRange i) ∧
    PyErr.subscriptTypeError name ≠ PyErr.stepZero ∧
    (∀ bt, PyErr.subscriptTypeError name ≠ PyErr.invalidBoundType bt) ∧
    (∀ ts, PyErr.subscriptTypeError name ≠ PyErr.invalidArgs ts) ∧
    (∀ x : Int, PyErr.subscriptTypeError name ≠ PyErr.notFound x) := by
  refine ⟨rfl, ?_, ?_, ?_, ?_, ?_⟩
  · intro i hc
    cases hc
  · intro hc
    cases hc
  · intro bt hc
    cases hc
  · intro ts hc
    cases hc
  · intro x hc
    cases hc

theorem claim_C10_subscript_type_witness :
    ((⟨⟨0, true⟩, ⟨10, false⟩, 1, 0⟩ : LusbTuple).step ≠ 0) ∧
    ((mkLusbir ⟨⟨0, true⟩, ⟨10, false⟩, 1, 0⟩).getitem (.other "float") =
        .error (.subscriptTypeError "float") ∧
      (∀ i : Int, PyErr.subscriptTypeError "float" ≠ PyErr.indexOutOfRange i) ∧
      PyErr.subscriptTypeError "float" ≠ PyErr.stepZero ∧
      (∀ bt, PyErr.subscriptTypeError "float" ≠ PyErr.invalidBoundType bt) ∧
      (∀ ts, PyErr.subscriptTypeError "float" ≠ PyErr.invalidArgs ts) ∧
      (∀ x : Int, PyErr.subscriptTypeError "float" ≠ PyErr.notFound x)) :=
  ⟨by decide, claim_C10_subscript_type ⟨⟨0, true⟩, ⟨10, false⟩, 1, 0⟩ (by decide) "float"⟩
